import Mathlib

/-!
Shallow embedding of the layout/composition core of `pdfreport.py`
(multi-page PDF photo report creator).

The two core functions are `generate_thumbnail(page)` and
`generate_pdf(pages, project_name, username, report_date)`.  Both are
modelled here as pure functions producing a symbolic description of the
drawing operations they perform (paste positions and sizes for the
thumbnail; image placements, description rows and footer text for the
printed page).  Pixel sizes are natural numbers; millimetre coordinates
computed with Python float division are modelled with exact rational
arithmetic (`ℚ`).  Image decoding (`PIL.Image.open`) is modelled by a
`Blob` that either decodes to a pixel size or raises; a raised decode
error propagates, as in Python, so each renderer returns `Except`.
-/

namespace Photoreport

/-- An uploaded image blob: either decodes to an image of the given pixel
width and height, or fails to decode (as `PIL.Image.open` raising). -/
inductive Blob where
  | valid : ℕ → ℕ → Blob
  | invalid : Blob
deriving DecidableEq

/-- A decoded image, `img.size = (w, h)` in pixels. -/
structure Img where
  w : ℕ
  h : ℕ
deriving DecidableEq

/-- `PIL.Image.open` on a blob: returns the decoded image or raises. -/
def decodeImg : Blob → Except Unit Img
  | .valid w h => .ok ⟨w, h⟩
  | .invalid => .error ()

/-- One page record as appended to `st.session_state.pages`:
`images`, `title`, `description` keys. -/
structure PageRecord where
  images : List Blob
  title : String
  description : String
deriving DecidableEq

/-- Decode a list of blobs in order; the first failure aborts the whole
call, exactly as an uncaught exception inside the Python `for` loops. -/
def decodeAll : List Blob → Except Unit (List Img)
  | [] => .ok []
  | b :: bs =>
    match decodeImg b with
    | .error e => .error e
    | .ok i =>
      match decodeAll bs with
      | .error e => .error e
      | .ok rest => .ok (i :: rest)

/-- Split a character list at each newline character, with no entry
after a trailing newline (helper for `splitlines`). -/
def splitlinesChars : List Char → List (List Char)
  | [] => []
  | c :: cs =>
    if c = '\n' then [] :: splitlinesChars cs
    else
      match splitlinesChars cs with
      | [] => [[c]]
      | l :: ls => (c :: l) :: ls

/-- Python `str.splitlines()` restricted to the line separator `"\n"`
(the only separator a `st.text_area` value contains): split at each
`"\n"`, a trailing separator contributes no empty final line, and the
empty string yields the empty list. -/
def splitlines (s : String) : List String :=
  (splitlinesChars s.data).map String.mk

/-- The padding loop of `generate_pdf`:
`while len(lines) < 10: lines.append("")`. -/
def padTo10 (lines : List String) : List String :=
  if _h : lines.length < 10 then padTo10 (lines ++ [""]) else lines
termination_by 10 - lines.length
decreasing_by simp; omega

namespace Thumb

/-- Thumbnail cell box width (`img_w = 140`). -/
def img_w : ℕ := 140

/-- Thumbnail cell box height (`img_h = 100`). -/
def img_h : ℕ := 100

/-- Thumbnail grid origin x (`start_x = 10`). -/
def start_x : ℤ := 10

/-- Thumbnail grid origin y (`start_y = 40`). -/
def start_y : ℤ := 40

/-- Thumbnail inter-cell gap (`gap = 10`). -/
def gap : ℤ := 10

end Thumb

/-- Python `min(floor(q), ceil(q), key=key)` followed by `max(·, 1)`,
as in PIL's `Image.thumbnail` helper `round_aspect` (Python's `min`
returns its first argument on a tie). -/
def roundAspect (q : ℚ) (key : ℤ → ℚ) : ℤ :=
  max (if key ⌊q⌋ ≤ key ⌈q⌉ then ⌊q⌋ else ⌈q⌉) 1

/-- The closeness key PIL uses when adjusting the width:
`lambda n: abs(aspect - n / y)`. -/
def keyW (w h bh : ℕ) : ℤ → ℚ := fun n => |(w : ℚ) / (h : ℚ) - (n : ℚ) / (bh : ℚ)|

/-- The closeness key PIL uses when adjusting the height:
`lambda n: 0 if n == 0 else abs(aspect - x / n)`. -/
def keyH (w h bw : ℕ) : ℤ → ℚ :=
  fun n => if n = 0 then 0 else |(w : ℚ) / (h : ℚ) - (bw : ℚ) / (n : ℚ)|

/-- Size computation of PIL `Image.thumbnail((bw, bh))` on an image of
pixel size `w × h` (Pillow ≥ 7.0): if the image already fits, it is
unchanged; otherwise the aspect ratio `aspect = w / h` is compared with
`bw / bh` and the non-constrained dimension is rounded to the integer
(floor or ceiling of the exact value `bh * aspect` resp. `bw / aspect`)
whose induced aspect is closest, clamped to at least 1. -/
def pilThumbnail (w h bw bh : ℕ) : ℕ × ℕ :=
  if bw ≥ w ∧ bh ≥ h then (w, h)
  else if (bw : ℚ) / (bh : ℚ) ≥ (w : ℚ) / (h : ℚ) then
    ((roundAspect ((bh : ℚ) * ((w : ℚ) / (h : ℚ))) (keyW w h bh)).toNat, bh)
  else
    (bw, (roundAspect ((bw : ℚ) / ((w : ℚ) / (h : ℚ))) (keyH w h bw)).toNat)

/-- One `thumb.paste(img, (x, y))` performed by `generate_thumbnail`:
paste position and the pasted (post-`img.thumbnail`) pixel size. -/
structure ThumbPaste where
  x : ℤ
  y : ℤ
  w : ℕ
  h : ℕ
deriving DecidableEq

/-- The drawing operations of one thumbnail canvas: the title text, the
image pastes in order, and the description lines drawn. -/
structure Thumbnail where
  title_text : String
  pastes : List ThumbPaste
  desc_texts : List String
deriving DecidableEq

/-- The paste of the `i`-th processed image in `generate_thumbnail`:
`img.thumbnail((img_w, img_h))` then paste at
`(start_x + (i % 2) * (img_w + gap), start_y + (i // 2) * (img_h + gap))`. -/
def thumbPasteOf (i : ℕ) (img : Img) : ThumbPaste :=
  let s := pilThumbnail img.w img.h Thumb.img_w Thumb.img_h
  { x := Thumb.start_x + ((i % 2 : ℕ) : ℤ) * ((Thumb.img_w : ℤ) + Thumb.gap)
    y := Thumb.start_y + ((i / 2 : ℕ) : ℤ) * ((Thumb.img_h : ℤ) + Thumb.gap)
    w := s.1
    h := s.2 }

/-- `generate_thumbnail(page)`: draw the title, decode and paste
`page["images"][:4]` on a 2-wide grid, then draw the first 6
description lines.  A decode failure aborts the whole composition. -/
def generate_thumbnail (page : PageRecord) : Except Unit Thumbnail :=
  match decodeAll (page.images.take 4) with
  | .error e => .error e
  | .ok imgs =>
    .ok { title_text := "Subject: " ++ page.title
          pastes := imgs.enum.map (fun p => thumbPasteOf p.1 p.2)
          desc_texts := (splitlines page.description).take 6 }

namespace Pdf

/-- `collage_width = 127` (mm). -/
def collage_width : ℚ := 127

/-- `collage_height = 90` (mm). -/
def collage_height : ℚ := 90

/-- `full_width = 190` (mm). -/
def full_width : ℚ := 190

/-- `x_offset = (210 - collage_width) // 2` — Python integer floor
division of ints, hence exactly 41. -/
def x_offset : ℚ := (((210 - 127 : ℤ) / 2 : ℤ) : ℚ)

/-- `y_offset = 25` (mm). -/
def y_offset : ℚ := 25

/-- `gap = 5` (mm). -/
def gap : ℚ := 5

/-- `rows = 2 if num_images > 2 else 1`. -/
def rows (n : ℕ) : ℕ := if n > 2 then 2 else 1

/-- `cols = 2 if num_images > 1 else 1`. -/
def cols (n : ℕ) : ℕ := if n > 1 then 2 else 1

/-- `img_w = (collage_width - gap * (cols - 1)) / cols` (cell width). -/
def img_w (n : ℕ) : ℚ := (collage_width - gap * ((cols n - 1 : ℕ) : ℚ)) / ((cols n : ℕ) : ℚ)

/-- `img_h = (collage_height - gap * (rows - 1)) / rows` (cell height). -/
def img_h (n : ℕ) : ℚ := (collage_height - gap * ((rows n - 1 : ℕ) : ℚ)) / ((rows n : ℕ) : ℚ)

/-- Cell origin x of image `i`: `x = x_offset + (img_w + gap) * (i % cols)`. -/
def cell_x (n i : ℕ) : ℚ := x_offset + (img_w n + gap) * ((i % cols n : ℕ) : ℚ)

/-- Cell origin y of image `i`: `y = y_offset + (img_h + gap) * (i // cols)`. -/
def cell_y (n i : ℕ) : ℚ := y_offset + (img_h n + gap) * ((i / cols n : ℕ) : ℚ)

end Pdf

/-- The aspect-fit of `generate_pdf` lines 152–161: compare
`img_aspect = width_px / height_px` with `box_aspect = boxW / boxH`;
width-constrained if `img_aspect > box_aspect`, else height-constrained.
Returns `(draw_w, draw_h)`. -/
def containFit (wpx hpx : ℕ) (boxW boxH : ℚ) : ℚ × ℚ :=
  let img_aspect : ℚ := (wpx : ℚ) / (hpx : ℚ)
  let box_aspect : ℚ := boxW / boxH
  if img_aspect > box_aspect then (boxW, boxW / img_aspect)
  else (boxH * img_aspect, boxH)

/-- One `pdf.image(...)` placement on a printed page: cell origin
`(x, y)` and drawn rectangle `(draw_x, draw_y, draw_w, draw_h)`. -/
structure Placement where
  x : ℚ
  y : ℚ
  draw_x : ℚ
  draw_y : ℚ
  draw_w : ℚ
  draw_h : ℚ
deriving DecidableEq

/-- The placement computed by `generate_pdf` for the `i`-th image of a
page with `n = len(page["images"])` images: contain-fit into the cell
and center: `draw_x = x + (img_w - draw_w) / 2`,
`draw_y = y + (img_h - draw_h) / 2`. -/
def placeImage (n i : ℕ) (img : Img) : Placement :=
  let x := Pdf.cell_x n i
  let y := Pdf.cell_y n i
  let s := containFit img.w img.h (Pdf.img_w n) (Pdf.img_h n)
  { x := x
    y := y
    draw_x := x + (Pdf.img_w n - s.1) / 2
    draw_y := y + (Pdf.img_h n - s.2) / 2
    draw_w := s.1
    draw_h := s.2 }

/-- The content of one printed A4 page produced by the body of the
`for page_num, page in enumerate(pages, start=1)` loop. -/
structure RenderedPage where
  page_num : ℕ
  subject_text : String
  desc_rows : List String
  placements : List Placement
  footer_text : String
deriving DecidableEq

/-- Render one page record at 1-indexed position `page_num`: decode and
place every image of the record (a decode failure propagates), pad the
description lines to at least 10 with the `while` loop and draw them
all, and write the `f"Page {page_num}"` footer. -/
def renderPage (page_num : ℕ) (page : PageRecord) : Except Unit RenderedPage :=
  match decodeAll page.images with
  | .error e => .error e
  | .ok imgs =>
    .ok { page_num := page_num
          subject_text := " Subject: " ++ page.title
          desc_rows := padTo10 (splitlines page.description)
          placements := imgs.enum.map (fun p => placeImage page.images.length p.1 p.2)
          footer_text := "Page " ++ toString page_num }

/-- The page loop of `generate_pdf`, carrying the 1-indexed counter of
`enumerate(pages, start=1)`. -/
def renderPages : ℕ → List PageRecord → Except Unit (List RenderedPage)
  | _, [] => .ok []
  | k, p :: ps =>
    match renderPage k p with
    | .error e => .error e
    | .ok r =>
      match renderPages (k + 1) ps with
      | .error e => .error e
      | .ok rest => .ok (r :: rest)

/-- `generate_pdf(pages, ...)`: one rendered page per record, in input
order, page numbers starting at 1; any decode failure aborts the whole
document. -/
def generate_pdf (pages : List PageRecord) : Except Unit (List RenderedPage) :=
  renderPages 1 pages

/-- Fixture: two image-free page records (used to instantiate general
page-numbering statements on concrete input). -/
def pagesW : List PageRecord := [⟨[], "a", ""⟩, ⟨[], "b", ""⟩]

/-- Fixture: the document `generate_pdf pagesW` produces. -/
def docW : List RenderedPage :=
  [{ page_num := 1, subject_text := " Subject: a",
     desc_rows := ["", "", "", "", "", "", "", "", "", ""],
     placements := [], footer_text := "Page 1" },
   { page_num := 2, subject_text := " Subject: b",
     desc_rows := ["", "", "", "", "", "", "", "", "", ""],
     placements := [], footer_text := "Page 2" }]

/-- Fixture: a page record with five decodable images (one more than
the grid maximum), the fifth of a different size. -/
def pg5W : PageRecord :=
  ⟨[Blob.valid 50 50, Blob.valid 50 50, Blob.valid 50 50, Blob.valid 50 50,
    Blob.valid 60 60], "t", ""⟩

/-! ### Helper lemmas -/

/-- Unfolding of the already-fits branch of `pilThumbnail`. -/
theorem pilThumbnail_fits {w h bw bh : ℕ} (hf : bw ≥ w ∧ bh ≥ h) :
    pilThumbnail w h bw bh = (w, h) := by
  rw [pilThumbnail, if_pos hf]

/-- Unfolding of the width-adjusting branch of `pilThumbnail`. -/
theorem pilThumbnail_wide {w h bw bh : ℕ} (hf : ¬(bw ≥ w ∧ bh ≥ h))
    (hbr : (bw : ℚ) / (bh : ℚ) ≥ (w : ℚ) / (h : ℚ)) :
    pilThumbnail w h bw bh =
      ((roundAspect ((bh : ℚ) * ((w : ℚ) / (h : ℚ))) (keyW w h bh)).toNat, bh) := by
  rw [pilThumbnail, if_neg hf, if_pos hbr]

/-- Unfolding of the height-adjusting branch of `pilThumbnail`. -/
theorem pilThumbnail_tall {w h bw bh : ℕ} (hf : ¬(bw ≥ w ∧ bh ≥ h))
    (hbr : ¬((bw : ℚ) / (bh : ℚ) ≥ (w : ℚ) / (h : ℚ))) :
    pilThumbnail w h bw bh =
      (bw, (roundAspect ((bw : ℚ) / ((w : ℚ) / (h : ℚ))) (keyH w h bw)).toNat) := by
  rw [pilThumbnail, if_neg hf, if_neg hbr]

/-- The padding `while` loop appends exactly enough blank lines to reach
10, and leaves a list of 10 or more lines unchanged. -/
theorem padTo10_eq (lines : List String) :
    padTo10 lines = lines ++ List.replicate (10 - lines.length) "" := by
  by_cases h : lines.length < 10
  · have hrec := padTo10_eq (lines ++ [""])
    unfold padTo10
    rw [dif_pos h, hrec]
    have h10 : 10 - lines.length = (10 - (lines.length + 1)) + 1 := by omega
    rw [h10, List.replicate_succ]
    simp
  · unfold padTo10
    rw [dif_neg h]
    have h0 : 10 - lines.length = 0 := by omega
    simp [h0]
termination_by 10 - lines.length
decreasing_by simp; omega

/-- A successful decode of a blob list yields one image per blob. -/
theorem decodeAll_ok_length : ∀ {bs : List Blob} {imgs : List Img},
    decodeAll bs = .ok imgs → imgs.length = bs.length := by
  intro bs
  induction bs with
  | nil => intro imgs h; simp [decodeAll] at h; simp [← h]
  | cons b bs ih =>
    intro imgs h
    cases b with
    | invalid => simp [decodeAll, decodeImg] at h
    | valid w hh =>
      rw [decodeAll, decodeImg] at h
      cases hrest : decodeAll bs with
      | error e => rw [hrest] at h; simp at h
      | ok rest =>
        rw [hrest] at h
        simp only [Except.ok.injEq] at h
        subst h
        simp [ih hrest]

/-- A blob list without undecodable entries decodes successfully. -/
theorem decodeAll_ok_of_no_invalid : ∀ {bs : List Blob}, Blob.invalid ∉ bs →
    ∃ imgs, decodeAll bs = .ok imgs ∧ imgs.length = bs.length := by
  intro bs
  induction bs with
  | nil => intro _; exact ⟨[], rfl, rfl⟩
  | cons b bs ih =>
    intro h
    have hb : b ≠ Blob.invalid := fun hb => h (hb ▸ List.mem_cons_self b bs)
    have hbs : Blob.invalid ∉ bs := fun hm => h (List.mem_cons_of_mem b hm)
    obtain ⟨imgs, himgs, hlen⟩ := ih hbs
    cases b with
    | invalid => exact absurd rfl hb
    | valid w hh =>
      refine ⟨⟨w, hh⟩ :: imgs, ?_, by simp [hlen]⟩
      rw [decodeAll, decodeImg, himgs]

/-- An undecodable blob anywhere in the list makes the whole decode
fail, as an uncaught exception in the Python loop. -/
theorem decodeAll_error_of_invalid : ∀ {bs : List Blob}, Blob.invalid ∈ bs →
    decodeAll bs = .error () := by
  intro bs
  induction bs with
  | nil => intro h; simp at h
  | cons b bs ih =>
    intro h
    cases b with
    | invalid => rw [decodeAll, decodeImg]
    | valid w hh =>
      have hm : Blob.invalid ∈ bs := by
        rcases List.mem_cons.mp h with h1 | h1
        · exact absurd h1.symm (by simp)
        · exact h1
      rw [decodeAll, decodeImg, ih hm]

/-- Field extraction from a successful single-page render. -/
theorem renderPage_ok_fields {k : ℕ} {page : PageRecord} {r : RenderedPage}
    (h : renderPage k page = .ok r) :
    r.page_num = k ∧ r.footer_text = "Page " ++ toString k ∧
    r.desc_rows = padTo10 (splitlines page.description) ∧
    ∃ imgs, decodeAll page.images = .ok imgs ∧ imgs.length = page.images.length ∧
      r.placements = imgs.enum.map fun p => placeImage page.images.length p.1 p.2 := by
  cases hd : decodeAll page.images with
  | error e => rw [renderPage, hd] at h; simp at h
  | ok imgs =>
    rw [renderPage, hd] at h
    simp only [Except.ok.injEq] at h
    subst h
    exact ⟨rfl, rfl, rfl, imgs, rfl, decodeAll_ok_length hd, rfl⟩

/-- A failing decode fails the whole page render. -/
theorem renderPage_error {k : ℕ} {page : PageRecord}
    (h : decodeAll page.images = .error ()) : renderPage k page = .error () := by
  rw [renderPage, h]

/-- The page loop yields one rendered page per record, in order, with
the 1-indexed counter threaded through. -/
theorem renderPages_ok : ∀ (ps : List PageRecord) (k : ℕ) (doc : List RenderedPage),
    renderPages k ps = .ok doc →
    doc.length = ps.length ∧ ∀ i (hi : i < doc.length), ∃ hp : i < ps.length,
      renderPage (k + i) (ps.get ⟨i, hp⟩) = .ok (doc.get ⟨i, hi⟩) := by
  intro ps
  induction ps with
  | nil =>
    intro k doc h
    simp only [renderPages, Except.ok.injEq] at h
    subst h
    exact ⟨rfl, fun i hi => absurd hi (by simp)⟩
  | cons p ps ih =>
    intro k doc h
    cases hr : renderPage k p with
    | error e => rw [renderPages, hr] at h; simp at h
    | ok r =>
      cases hrest : renderPages (k + 1) ps with
      | error e => rw [renderPages, hr, hrest] at h; simp at h
      | ok rest =>
        rw [renderPages, hr, hrest] at h
        simp only [Except.ok.injEq] at h
        subst h
        obtain ⟨hlen, hget⟩ := ih (k + 1) rest hrest
        refine ⟨by simp [hlen], ?_⟩
        intro i hi
        cases i with
        | zero => exact ⟨by simp, by simpa using hr⟩
        | succ j =>
          have hj : j < rest.length := by simpa using hi
          obtain ⟨hp, hp2⟩ := hget j hj
          refine ⟨by simpa using hp, ?_⟩
          have hk : k + (j + 1) = k + 1 + j := by omega
          rw [hk]
          simpa using hp2

/-- The page loop propagates a page-render failure. -/
theorem renderPages_error : ∀ (ps : List PageRecord) (k : ℕ),
    (∃ p ∈ ps, Blob.invalid ∈ p.images) → renderPages k ps = .error () := by
  intro ps
  induction ps with
  | nil => intro k h; simp at h
  | cons p ps ih =>
    intro k h
    rcases h with ⟨q, hq, hmem⟩
    rcases List.mem_cons.mp hq with h1 | h1
    · subst h1
      rw [renderPages, renderPage_error (decodeAll_error_of_invalid hmem)]
    · cases hr : renderPage k p with
      | error e =>
        rw [renderPages, hr]
      | ok r =>
        rw [renderPages, hr, ih (k + 1) ⟨q, h1, hmem⟩]

/-- Bounds for the `round_aspect` helper: the result lies between the
floor and the ceiling of the exact value, and is at least 1. -/
theorem roundAspect_bounds (q : ℚ) (key : ℤ → ℚ) (hq : 0 < q) :
    ⌊q⌋ ≤ roundAspect q key ∧ roundAspect q key ≤ ⌈q⌉ ∧ 1 ≤ roundAspect q key := by
  have hceil : 1 ≤ ⌈q⌉ := by
    have := Int.ceil_pos.mpr hq
    omega
  have hfc : ⌊q⌋ ≤ ⌈q⌉ := Int.floor_le_ceil q
  rw [roundAspect]
  split
  · exact ⟨le_max_left _ _, max_le hfc hceil, le_max_right _ _⟩
  · exact ⟨le_trans hfc (le_max_left _ _), max_le le_rfl hceil, le_max_right _ _⟩

/-! ### Claims -/

/-- Claim C1, counterexample: a description with 11 lines renders 11
description rows, not 10 — the code pads short descriptions but never
truncates long ones, so "exactly 10 rows, lines beyond the 10th
dropped" fails. -/
theorem C1_counterexample :
    (generate_pdf [(⟨[], "t", "1\n2\n3\n4\n5\n6\n7\n8\n9\n0\n1"⟩ : PageRecord)]).map
      (fun doc => doc.map fun r => r.desc_rows.length) = .ok [11] ∧ (11 : ℕ) ≠ 10 := by
  constructor
  · have hs : splitlines "1\n2\n3\n4\n5\n6\n7\n8\n9\n0\n1" =
        ["1", "2", "3", "4", "5", "6", "7", "8", "9", "0", "1"] := by decide
    simp [generate_pdf, renderPages, renderPage, decodeAll, Except.map, hs, padTo10]
  · decide

/-- Claim C1 (amended): the rendered description rows are the split
description lines followed by blank lines padding up to 10; a
description with `k < 10` lines renders `k` content rows plus `10 - k`
blank rows, and one with `k ≥ 10` lines renders all `k` rows (no
truncation). -/
theorem C1_desc_rows {k : ℕ} {page : PageRecord} {r : RenderedPage}
    (h : renderPage k page = .ok r) :
    r.desc_rows = splitlines page.description ++
      List.replicate (10 - (splitlines page.description).length) "" ∧
    r.desc_rows.length = max (splitlines page.description).length 10 := by
  obtain ⟨-, -, hdesc, -⟩ := renderPage_ok_fields h
  rw [hdesc, padTo10_eq]
  refine ⟨rfl, ?_⟩
  simp only [List.length_append, List.length_replicate]
  omega

/-- Witness for C1: the amended statement at a concrete one-line
description. -/
theorem C1_witness :
    (["x", "", "", "", "", "", "", "", "", ""] : List String) =
      splitlines "x" ++ List.replicate (10 - (splitlines "x").length) "" ∧
    (["x", "", "", "", "", "", "", "", "", ""] : List String).length =
      max (splitlines "x").length 10 :=
  @C1_desc_rows 1 ⟨[], "a", "x"⟩
    ⟨1, " Subject: a", ["x", "", "", "", "", "", "", "", "", ""], [], "Page 1"⟩
    (by
      have hs : splitlines "x" = ["x"] := by decide
      have hp : ("Page " ++ toString 1) = "Page 1" := by decide
      simp [renderPage, decodeAll, hs, hp, padTo10])

/-- Claim C2: the printed-page grid layout is `(rows, cols) = (1,1)`
for 1 image, `(1,2)` for 2, and `(2,2)` for 3 and 4. -/
theorem C2_grid_layout :
    (Pdf.rows 1, Pdf.cols 1) = (1, 1) ∧ (Pdf.rows 2, Pdf.cols 2) = (1, 2) ∧
    (Pdf.rows 3, Pdf.cols 3) = (2, 2) ∧ (Pdf.rows 4, Pdf.cols 4) = (2, 2) := by
  decide

/-- Claim C3, counterexample: for an image whose aspect ratio equals
the cell's (127 × 90 pixels in the 1-image cell of 127 × 90 mm) BOTH
`draw_w = cellW` and `draw_h = cellH` hold, so "exactly one of the two
equalities holds" fails. -/
theorem C3_counterexample :
    (placeImage 1 0 ⟨127, 90⟩).draw_w = Pdf.img_w 1 ∧
    (placeImage 1 0 ⟨127, 90⟩).draw_h = Pdf.img_h 1 := by
  constructor <;>
    norm_num [placeImage, containFit, Pdf.img_w, Pdf.img_h, Pdf.rows, Pdf.cols,
      Pdf.collage_width, Pdf.collage_height, Pdf.gap]

/-- Claim C3 (amended): the contain fit never exceeds the cell box,
preserves the aspect ratio exactly (`draw_w * h = draw_h * w`), at
least one of draw width = cell width / draw height = cell height
holds, and when the image aspect differs from the box aspect exactly
one of them holds. -/
theorem C3_contain_fit (w h : ℕ) (cw ch : ℚ) (hw : 0 < w) (hh : 0 < h)
    (hcw : 0 < cw) (hch : 0 < ch) :
    (containFit w h cw ch).1 ≤ cw ∧ (containFit w h cw ch).2 ≤ ch ∧
    ((containFit w h cw ch).1 = cw ∨ (containFit w h cw ch).2 = ch) ∧
    (containFit w h cw ch).1 * h = (containFit w h cw ch).2 * w ∧
    ((w : ℚ) * ch ≠ (h : ℚ) * cw →
      ¬((containFit w h cw ch).1 = cw ∧ (containFit w h cw ch).2 = ch)) := by
  have hwQ : (0 : ℚ) < w := by exact_mod_cast hw
  have hhQ : (0 : ℚ) < h := by exact_mod_cast hh
  rw [containFit]
  by_cases hcmp : (w : ℚ) / h > cw / ch
  · rw [if_pos hcmp]
    dsimp only
    have hlt : cw * h < w * ch := (div_lt_div_iff hch hhQ).mp hcmp
    have hdd : cw / ((w : ℚ) / h) = cw * h / w := div_div_eq_mul_div cw (w : ℚ) h
    refine ⟨le_refl _, ?_, Or.inl rfl, ?_, ?_⟩
    · rw [hdd, div_le_iff hwQ]
      linarith
    · rw [hdd, div_mul_cancel₀ _ (ne_of_gt hwQ)]
    · intro hne hand
      apply hne
      have h2 := hand.2
      rw [hdd] at h2
      have h3 : cw * h = ch * w := by
        field_simp at h2
        linarith
      linear_combination -h3
  · rw [if_neg hcmp]
    dsimp only
    push_neg at hcmp
    have hle : w * ch ≤ cw * h := (div_le_div_iff hhQ hch).mp hcmp
    have hma : ch * ((w : ℚ) / h) = ch * w / h := (mul_div_assoc ch (w : ℚ) h).symm
    refine ⟨?_, le_refl _, Or.inr rfl, ?_, ?_⟩
    · rw [hma, div_le_iff hhQ]
      linarith
    · rw [hma, div_mul_cancel₀ _ (ne_of_gt hhQ)]
    · intro hne hand
      apply hne
      have h1 := hand.1
      rw [hma] at h1
      have h3 : ch * w = cw * h := by
        field_simp at h1
        linarith
      linear_combination h3

/-- Witness for C3: the amended statement at a 2 × 1 image in a
127 × 90 cell (width-constrained, exactly one equality). -/
theorem C3_witness :
    (containFit 2 1 127 90).1 ≤ 127 ∧ (containFit 2 1 127 90).2 ≤ 90 ∧
    ((containFit 2 1 127 90).1 = 127 ∨ (containFit 2 1 127 90).2 = 90) ∧
    ¬((containFit 2 1 127 90).1 = 127 ∧ (containFit 2 1 127 90).2 = 90) := by
  have hth := C3_contain_fit 2 1 127 90 (by norm_num) (by norm_num) (by norm_num) (by norm_num)
  exact ⟨hth.1, hth.2.1, hth.2.2.1, hth.2.2.2.2 (by norm_num)⟩

/-- Claim C4: every placed image is centered in its cell — the drawn
rectangle's midpoint equals the cell's midpoint, exactly over `ℚ`. -/
theorem C4_centering (n i : ℕ) (img : Img) :
    (placeImage n i img).draw_x + (placeImage n i img).draw_w / 2 =
      (placeImage n i img).x + Pdf.img_w n / 2 ∧
    (placeImage n i img).draw_y + (placeImage n i img).draw_h / 2 =
      (placeImage n i img).y + Pdf.img_h n / 2 := by
  constructor <;> (simp only [placeImage]; ring)

/-- Claim C5: a document built from `m` records has exactly `m` pages,
in input order (page `i` renders record `i`), and the page-number
footer of the `i`-th page (0-indexed) reads `Page i+1` — so the
printed numbers are exactly 1..m. -/
theorem C5_page_numbering (pages : List PageRecord) (doc : List RenderedPage)
    (h : generate_pdf pages = .ok doc) :
    doc.length = pages.length ∧ ∀ i (hi : i < doc.length),
      (doc.get ⟨i, hi⟩).page_num = i + 1 ∧
      (doc.get ⟨i, hi⟩).footer_text = "Page " ++ toString (i + 1) ∧
      ∃ hp : i < pages.length,
        renderPage (i + 1) (pages.get ⟨i, hp⟩) = .ok (doc.get ⟨i, hi⟩) := by
  obtain ⟨hlen, hget⟩ := renderPages_ok pages 1 doc h
  refine ⟨hlen, ?_⟩
  intro i hi
  obtain ⟨hp, hr⟩ := hget i hi
  rw [Nat.add_comm 1 i] at hr
  obtain ⟨hnum, hfoot, -, -⟩ := renderPage_ok_fields hr
  exact ⟨hnum, hfoot, hp, hr⟩

/-- Witness for C5: a concrete 2-record document has 2 pages numbered
1 and 2. -/
theorem C5_witness :
    docW.length = pagesW.length ∧
    (docW.get ⟨0, by decide⟩).page_num = 0 + 1 ∧
    (docW.get ⟨1, by decide⟩).page_num = 1 + 1 := by
  have hth := C5_page_numbering pagesW docW (by
    have h1 : ("Page " ++ toString 1) = "Page 1" := by decide
    have h2 : ("Page " ++ toString 2) = "Page 2" := by decide
    have hs : splitlines "" = [] := by decide
    simp [generate_pdf, renderPages, renderPage, decodeAll, pagesW, docW, hs,
      padTo10, h1, h2])
  exact ⟨hth.1, (hth.2 0 (by decide)).1, (hth.2 1 (by decide)).1⟩

/-- Claim C6: for a well-formed record (1–4 decodable images) the
thumbnail's pastes sit exactly on the grid `(i % cols n, i // cols n)`
derived from the printed renderer's `GridLayout(n)`, and every such
grid position lies inside the `rows n × cols n` grid — both renderers
select the same layout. -/
theorem C6_grid_agreement (page : PageRecord) (n : ℕ) (hn : page.images.length = n)
    (h1 : 1 ≤ n) (h4 : n ≤ 4) (hv : Blob.invalid ∉ page.images) :
    (generate_thumbnail page).map (fun t => t.pastes.map fun pst => (pst.x, pst.y)) =
      .ok ((List.range n).map fun i =>
        (Thumb.start_x + ((i % Pdf.cols n : ℕ) : ℤ) * ((Thumb.img_w : ℤ) + Thumb.gap),
         Thumb.start_y + ((i / Pdf.cols n : ℕ) : ℤ) * ((Thumb.img_h : ℤ) + Thumb.gap))) ∧
    ∀ i, i < n → i / Pdf.cols n < Pdf.rows n ∧ i % Pdf.cols n < Pdf.cols n := by
  have harith : ∀ m, m ≤ 4 → 1 ≤ m → ∀ j, j < m →
      j % 2 = j % Pdf.cols m ∧ j / 2 = j / Pdf.cols m ∧
      j / 2 < Pdf.rows m ∧ j % 2 < Pdf.cols m := by decide
  have htake : page.images.take 4 = page.images :=
    List.take_of_length_le (by omega)
  obtain ⟨imgs, hok, hlen⟩ := decodeAll_ok_of_no_invalid hv
  constructor
  · rw [generate_thumbnail, htake, hok]
    simp only [Except.map, Except.ok.injEq]
    refine List.ext_getElem ?_ ?_
    · simp [hlen, hn]
    · intro j hj1 hj2
      have hjn : j < n := by simpa using hj2
      obtain ⟨e1, e2, -, -⟩ := harith n h4 h1 j hjn
      simp only [List.getElem_map, List.getElem_enum, List.getElem_range, thumbPasteOf]
      rw [← e1, ← e2]
  · intro i hi
    obtain ⟨e1, e2, e3, e4⟩ := harith n h4 h1 i hi
    exact ⟨e2 ▸ e3, e1 ▸ e4⟩

/-- Witness for C6: a concrete 2-image record, shown to agree with
`GridLayout(2)` (its second paste sits at column 1, row 0 of a 1 × 2
grid). -/
theorem C6_witness :
    (generate_thumbnail ⟨[Blob.valid 50 50, Blob.valid 50 50], "t", ""⟩).map
        (fun t => t.pastes.map fun pst => (pst.x, pst.y)) =
      .ok ((List.range 2).map fun i =>
        (Thumb.start_x + ((i % Pdf.cols 2 : ℕ) : ℤ) * ((Thumb.img_w : ℤ) + Thumb.gap),
         Thumb.start_y + ((i / Pdf.cols 2 : ℕ) : ℤ) * ((Thumb.img_h : ℤ) + Thumb.gap))) ∧
    1 / Pdf.cols 2 < Pdf.rows 2 ∧ 1 % Pdf.cols 2 < Pdf.cols 2 := by
  have hth := C6_grid_agreement ⟨[Blob.valid 50 50, Blob.valid 50 50], "t", ""⟩ 2 rfl
    (by norm_num) (by norm_num) (by decide)
  exact ⟨hth.1, hth.2 1 (by norm_num)⟩

/-- Claim C7: the thumbnail composer processes only the first 4 images
(`page["images"][:4]`): a record with more than 4 images yields the
same thumbnail as the record truncated to its first 4 images, and at
most 4 pastes are performed. -/
theorem C7_thumbnail_clamp (page : PageRecord) (h4 : 4 < page.images.length) :
    generate_thumbnail page =
      generate_thumbnail { page with images := page.images.take 4 } ∧
    ∀ t, generate_thumbnail page = .ok t → t.pastes.length ≤ 4 := by
  constructor
  · rw [generate_thumbnail, generate_thumbnail]
    simp [List.take_take]
  · intro t ht
    cases hd : decodeAll (page.images.take 4) with
    | error e => rw [generate_thumbnail, hd] at ht; simp at ht
    | ok imgs =>
      rw [generate_thumbnail, hd] at ht
      simp only [Except.ok.injEq] at ht
      subst ht
      have hl := decodeAll_ok_length hd
      simp only [List.length_map, List.enum_length, hl, List.length_take]
      omega

/-- Witness for C7: a concrete 5-image record (5th image of a
different size) yields the same thumbnail as its first-4 truncation,
with 4 pastes. -/
theorem C7_witness :
    generate_thumbnail pg5W =
      generate_thumbnail { pg5W with images := pg5W.images.take 4 } ∧
    (⟨"Subject: t",
      [⟨10, 40, 50, 50⟩, ⟨160, 40, 50, 50⟩, ⟨10, 150, 50, 50⟩, ⟨160, 150, 50, 50⟩],
      []⟩ : Thumbnail).pastes.length ≤ 4 := by
  have hth := C7_thumbnail_clamp pg5W (by decide)
  exact ⟨hth.1, hth.2 _ rfl⟩

/-- Claim C8, counterexample: a 150 × 100 image is pasted at 140 × 93
(PIL rounds the height to a whole pixel), and 140 × 93 does not have
the 3 : 2 aspect ratio of the original (140 · 100 ≠ 93 · 150) — exact
aspect-ratio preservation fails. -/
theorem C8_counterexample :
    generate_thumbnail ⟨[Blob.valid 150 100], "t", ""⟩ =
      .ok ⟨"Subject: t", [⟨10, 40, 140, 93⟩], []⟩ ∧
    ¬(140 * 100 = 93 * 150) := by
  constructor
  · have hf : ¬((140 : ℕ) ≥ 150 ∧ (100 : ℕ) ≥ 100) := by omega
    have hbr : ¬(((140 : ℕ) : ℚ) / ((100 : ℕ) : ℚ) ≥ ((150 : ℕ) : ℚ) / ((100 : ℕ) : ℚ)) := by
      push_cast
      norm_num
    have hqe : ((140 : ℕ) : ℚ) / (((150 : ℕ) : ℚ) / ((100 : ℕ) : ℚ)) = 280 / 3 := by
      push_cast
      norm_num
    have hfl : ⌊(280 : ℚ) / 3⌋ = (93 : ℤ) := by
      rw [Int.floor_eq_iff]
      norm_num
    have hcl : ⌈(280 : ℚ) / 3⌉ = (94 : ℤ) := by
      rw [Int.ceil_eq_iff]
      norm_num
    have hk93 : keyH 150 100 140 93 = 1 / 186 := by
      simp only [keyH]
      rw [if_neg (by norm_num), abs_of_nonpos (by push_cast; norm_num)]
      push_cast
      norm_num
    have hk94 : keyH 150 100 140 94 = 1 / 94 := by
      simp only [keyH]
      rw [if_neg (by norm_num), abs_of_nonneg (by push_cast; norm_num)]
      push_cast
      norm_num
    have hp : pilThumbnail 150 100 140 100 = (140, 93) := by
      rw [pilThumbnail_tall hf hbr, hqe]
      norm_num [roundAspect, hfl, hcl, hk93, hk94]
      decide
    have hs : splitlines "" = [] := rfl
    simp [generate_thumbnail, decodeAll, decodeImg, thumbPasteOf, Thumb.img_w,
      Thumb.img_h, Thumb.start_x, Thumb.start_y, Thumb.gap, hp, hs]
  · decide

/-- Claim C8 (amended): every paste size computed by the thumbnail
composer fits in the 140 × 100 cell box, never exceeds the original
pixel size, is at least 1 × 1, and preserves the aspect ratio up to
integer rounding: either the image is unchanged, or one dimension
equals the box's and the other lies between the floor and the ceiling
of the exact aspect-preserving value. -/
theorem C8_thumbnail_fit (w h : ℕ) (hw : 1 ≤ w) (hh : 1 ≤ h) :
    (pilThumbnail w h 140 100).1 ≤ 140 ∧ (pilThumbnail w h 140 100).2 ≤ 100 ∧
    (pilThumbnail w h 140 100).1 ≤ w ∧ (pilThumbnail w h 140 100).2 ≤ h ∧
    1 ≤ (pilThumbnail w h 140 100).1 ∧ 1 ≤ (pilThumbnail w h 140 100).2 ∧
    (pilThumbnail w h 140 100 = (w, h) ∨
      ((pilThumbnail w h 140 100).2 = 100 ∧
        ⌊100 * (w : ℚ) / h⌋ ≤ ((pilThumbnail w h 140 100).1 : ℤ) ∧
        ((pilThumbnail w h 140 100).1 : ℤ) ≤ ⌈100 * (w : ℚ) / h⌉) ∨
      ((pilThumbnail w h 140 100).1 = 140 ∧
        ⌊140 * (h : ℚ) / w⌋ ≤ ((pilThumbnail w h 140 100).2 : ℤ) ∧
        ((pilThumbnail w h 140 100).2 : ℤ) ≤ ⌈140 * (h : ℚ) / w⌉)) := by
  have hwQ : (0 : ℚ) < w := by exact_mod_cast hw
  have hhQ : (0 : ℚ) < h := by exact_mod_cast hh
  by_cases hfits : (140 : ℕ) ≥ w ∧ (100 : ℕ) ≥ h
  · rw [pilThumbnail_fits hfits]
    exact ⟨hfits.1, hfits.2, le_refl _, le_refl _, hw, hh, Or.inl rfl⟩
  · by_cases hbr : ((140 : ℕ) : ℚ) / ((100 : ℕ) : ℚ) ≥ (w : ℚ) / (h : ℚ)
    · rw [pilThumbnail_wide hfits hbr]
      set q : ℚ := ((100 : ℕ) : ℚ) * ((w : ℚ) / (h : ℚ)) with hq
      have hq0 : 0 < q := by rw [hq]; positivity
      obtain ⟨hfl, hce, h1x⟩ := roundAspect_bounds q (keyW w h 100) hq0
      set x : ℤ := roundAspect q (keyW w h 100) with hx
      have hcross : (w : ℚ) * 100 ≤ 140 * h := by
        rw [ge_iff_le, div_le_div_iff hhQ (by positivity)] at hbr
        push_cast at hbr ⊢
        linarith
      have hNcross : w * 100 ≤ 140 * h := by exact_mod_cast hcross
      have h100h : 100 ≤ h := by
        by_contra hcon
        omega
      have hq140 : q ≤ (140 : ℚ) := by
        rw [hq, ← mul_div_assoc, div_le_iff hhQ]
        push_cast
        linarith
      have hqw : q ≤ (w : ℚ) := by
        rw [hq, ← mul_div_assoc, div_le_iff hhQ]
        have hc : (100 : ℚ) ≤ (h : ℚ) := by exact_mod_cast h100h
        push_cast
        nlinarith
      have hx140 : x ≤ 140 := le_trans hce (Int.ceil_le.mpr (by push_cast; linarith [hq140]))
      have hxw : x ≤ (w : ℤ) := le_trans hce (Int.ceil_le.mpr (by push_cast; linarith [hqw]))
      have htn : ((x.toNat : ℕ) : ℤ) = x := Int.toNat_of_nonneg (by omega)
      have hqeq : 100 * (w : ℚ) / h = q := by rw [hq]; push_cast; ring
      refine ⟨Int.toNat_le.mpr hx140, le_refl _, Int.toNat_le.mpr hxw, h100h,
        by omega, by norm_num, Or.inr (Or.inl ⟨rfl, ?_, ?_⟩)⟩
      · rw [hqeq, htn]
        exact hfl
      · rw [hqeq, htn]
        exact hce
    · rw [pilThumbnail_tall hfits hbr]
      set q : ℚ := ((140 : ℕ) : ℚ) / ((w : ℚ) / (h : ℚ)) with hq
      have hqm : q = 140 * (h : ℚ) / w := by
        rw [hq, div_div_eq_mul_div]
        push_cast
        ring
      have hq0 : 0 < q := by rw [hqm]; positivity
      obtain ⟨hfl, hce, h1y⟩ := roundAspect_bounds q (keyH w h 140) hq0
      set y : ℤ := roundAspect q (keyH w h 140) with hy
      have hcross : (140 : ℚ) * h < w * 100 := by
        push_neg at hbr
        rw [div_lt_div_iff (by positivity) hhQ] at hbr
        push_cast at hbr ⊢
        linarith
      have hNcross : 140 * h < w * 100 := by exact_mod_cast hcross
      have h140w : 140 ≤ w := by
        by_contra hcon
        omega
      have hq100 : q ≤ (100 : ℚ) := by
        rw [hqm, div_le_iff hwQ]
        linarith
      have hqh : q ≤ (h : ℚ) := by
        rw [hqm, div_le_iff hwQ]
        have hc : (140 : ℚ) ≤ (w : ℚ) := by exact_mod_cast h140w
        nlinarith [hhQ]
      have hy100 : y ≤ 100 := le_trans hce (Int.ceil_le.mpr (by push_cast; linarith [hq100]))
      have hyh : y ≤ (h : ℤ) := le_trans hce (Int.ceil_le.mpr (by push_cast; linarith [hqh]))
      have htn : ((y.toNat : ℕ) : ℤ) = y := Int.toNat_of_nonneg (by omega)
      refine ⟨le_refl _, Int.toNat_le.mpr hy100, h140w, Int.toNat_le.mpr hyh,
        by norm_num, by omega, Or.inr (Or.inr ⟨rfl, ?_, ?_⟩)⟩
      · rw [← hqm, htn]
        exact hfl
      · rw [← hqm, htn]
        exact hce

/-- Witness for C8: the amended statement at a concrete 150 × 100
image. -/
theorem C8_witness :
    (pilThumbnail 150 100 140 100).1 ≤ 140 ∧ (pilThumbnail 150 100 140 100).2 ≤ 100 ∧
    (pilThumbnail 150 100 140 100).1 ≤ 150 ∧ (pilThumbnail 150 100 140 100).2 ≤ 100 ∧
    1 ≤ (pilThumbnail 150 100 140 100).1 ∧ 1 ≤ (pilThumbnail 150 100 140 100).2 ∧
    (pilThumbnail 150 100 140 100 = (150, 100) ∨
      ((pilThumbnail 150 100 140 100).2 = 100 ∧
        ⌊100 * (150 : ℚ) / 100⌋ ≤ ((pilThumbnail 150 100 140 100).1 : ℤ) ∧
        ((pilThumbnail 150 100 140 100).1 : ℤ) ≤ ⌈100 * (150 : ℚ) / 100⌉) ∨
      ((pilThumbnail 150 100 140 100).1 = 140 ∧
        ⌊140 * (100 : ℚ) / 150⌋ ≤ ((pilThumbnail 150 100 140 100).2 : ℤ) ∧
        ((pilThumbnail 150 100 140 100).2 : ℤ) ≤ ⌈140 * (100 : ℚ) / 150⌉)) := by
  have hth := C8_thumbnail_fit 150 100 (by norm_num) (by norm_num)
  exact_mod_cast hth

/-- Claim C9, counterexample: a 5-image list whose 5th blob is
undecodable does NOT make `generate_thumbnail` fail — the bad blob is
cut off by the `[:4]` clamp and a thumbnail is produced, so "any
undecodable blob makes both renderers fail" is false as stated. -/
theorem C9_counterexample :
    Blob.invalid ∈ ([Blob.valid 50 50, Blob.valid 50 50, Blob.valid 50 50,
      Blob.valid 50 50, Blob.invalid] : List Blob) ∧
    generate_thumbnail ⟨[Blob.valid 50 50, Blob.valid 50 50, Blob.valid 50 50,
        Blob.valid 50 50, Blob.invalid], "t", ""⟩ =
      .ok ⟨"Subject: t",
        [⟨10, 40, 50, 50⟩, ⟨160, 40, 50, 50⟩, ⟨10, 150, 50, 50⟩, ⟨160, 150, 50, 50⟩],
        []⟩ :=
  ⟨by decide, rfl⟩

/-- Claim C9 (amended): an undecodable blob anywhere in any page makes
the whole `generate_pdf` call fail with no partial document, and an
undecodable blob among the first 4 images (in particular anywhere in a
well-formed 1–4-image record) makes `generate_thumbnail` fail with no
partial thumbnail. -/
theorem C9_decode_failure :
    (∀ pages : List PageRecord, (∃ p ∈ pages, Blob.invalid ∈ p.images) →
      generate_pdf pages = .error ()) ∧
    (∀ page : PageRecord, Blob.invalid ∈ page.images.take 4 →
      generate_thumbnail page = .error ()) := by
  constructor
  · intro pages h
    exact renderPages_error pages 1 h
  · intro page h
    rw [generate_thumbnail, decodeAll_error_of_invalid h]

/-- Witness for C9: a one-page record with a single undecodable blob
makes both renderers fail. -/
theorem C9_witness :
    generate_pdf [⟨[Blob.invalid], "t", "d"⟩] = .error () ∧
    generate_thumbnail ⟨[Blob.invalid], "t", "d"⟩ = .error () :=
  ⟨C9_decode_failure.1 _ ⟨⟨[Blob.invalid], "t", "d"⟩, by simp, by simp⟩,
   C9_decode_failure.2 _ (by simp)⟩

/-- Claim C10: `generate_pdf` applies no image-count clamp — a page
with `n > 4` decodable images gets all `n` images placed, and every
image with index `i ≥ 4` sits at grid row `i / 2 ≥ 2`, whose cell `y`
origin lies strictly below the collage region's bottom
`y_offset + collage_height`. -/
theorem C10_no_clamp (n i k : ℕ) (page : PageRecord)
    (hn : 4 < n) (hi4 : 4 ≤ i) (hin : i < n) (hv : Blob.invalid ∉ page.images) :
    Pdf.cols n = 2 ∧ 2 ≤ i / 2 ∧
    Pdf.y_offset + Pdf.collage_height < Pdf.cell_y n i ∧
    (renderPage k page).map (fun r => r.placements.length) = .ok page.images.length := by
  have hcols : Pdf.cols n = 2 := by
    simp only [Pdf.cols]
    rw [if_pos (show n > 1 by omega)]
  have hrows : Pdf.rows n = 2 := by
    simp only [Pdf.rows]
    rw [if_pos (show n > 2 by omega)]
  refine ⟨hcols, by omega, ?_, ?_⟩
  · have himg : Pdf.img_h n = 85 / 2 := by
      rw [Pdf.img_h, hrows]
      norm_num [Pdf.collage_height, Pdf.gap]
    rw [Pdf.cell_y, hcols, himg]
    have h2 : (2 : ℚ) ≤ ((i / 2 : ℕ) : ℚ) := by
      have hn2 : 2 ≤ i / 2 := by omega
      exact_mod_cast hn2
    simp only [Pdf.y_offset, Pdf.collage_height, Pdf.gap]
    linarith
  · obtain ⟨imgs, hok, hlen⟩ := decodeAll_ok_of_no_invalid hv
    rw [renderPage, hok]
    simp [Except.map, hlen]

/-- Witness for C10: a concrete 5-image page — the 5th image (index 4)
is assigned row 2, below the collage bottom, and all 5 images are
placed. -/
theorem C10_witness :
    Pdf.cols 5 = 2 ∧ 2 ≤ 4 / 2 ∧
    Pdf.y_offset + Pdf.collage_height < Pdf.cell_y 5 4 ∧
    (renderPage 1 ⟨[Blob.valid 50 50, Blob.valid 50 50, Blob.valid 50 50,
        Blob.valid 50 50, Blob.valid 50 50], "t", "d"⟩).map
      (fun r => r.placements.length) = .ok 5 :=
  C10_no_clamp 5 4 1
    ⟨[Blob.valid 50 50, Blob.valid 50 50, Blob.valid 50 50, Blob.valid 50 50,
      Blob.valid 50 50], "t", "d"⟩
    (by norm_num) (by norm_num) (by norm_num) (by decide)

end Photoreport
